import Mathlib

/-!
Verification of the lucigo LUCIDAC client library (Go package `lucigo`).

The development shallowly embeds the Go source of `lucigo.go`:

* the JSONL envelope types `SendEnvelope` / `RecvEnvelope` and the
  synchronous read loop of `HybridController.Command`,
* the endpoint model (`TCPEndpoint`, `SerialEndpoint`) with `ParseEndpoint`
  and the `ToURL` renderers,
* the mDNS discovery helpers (`Discovery.checkServer`, `Discovery.FindAll`,
  `Discovery.FindMaxOne`, `Discovery.Close`).

External collaborators (`net/url.Parse`, `strconv.Atoi`, `encoding/json`,
Go channel semantics) are modelled by executable Lean functions following
the Go standard library and language specification on the inputs this
client can produce; restrictions of the models (no percent-escapes, no
bracketed IPv6 hosts, no userinfo validation) are noted at the definitions.
-/

namespace Lucigo

/-- JSON values: the payload universe for envelope `msg` fields.  This models
the Go `interface{}` data that `encoding/json` produces and consumes. -/
inductive JsonVal where
  | null
  | boolean (b : Bool)
  | num (n : Int)
  | str (s : String)
  | arr (elems : List JsonVal)
  | obj (fields : List (String × JsonVal))

mutual

/-- Structural equality on JSON values, the `reflect.DeepEqual` behaviour on
decoded `encoding/json` data. -/
def JsonVal.beq : JsonVal → JsonVal → Bool
  | .null, .null => true
  | .boolean a, .boolean b => a == b
  | .num a, .num b => a == b
  | .str a, .str b => a == b
  | .arr xs, .arr ys => JsonVal.beqList xs ys
  | .obj xs, .obj ys => JsonVal.beqObj xs ys
  | _, _ => false

/-- Elementwise `JsonVal.beq` on JSON arrays. -/
def JsonVal.beqList : List JsonVal → List JsonVal → Bool
  | [], [] => true
  | x :: xs, y :: ys => JsonVal.beq x y && JsonVal.beqList xs ys
  | _, _ => false

/-- Elementwise `JsonVal.beq` on JSON object field lists. -/
def JsonVal.beqObj : List (String × JsonVal) → List (String × JsonVal) → Bool
  | [], [] => true
  | x :: xs, y :: ys => x.1 == y.1 && JsonVal.beq x.2 y.2 && JsonVal.beqObj xs ys
  | _, _ => false

end

/-- Models `uuid.UUID` (16 opaque bytes); the client only ever compares
UUIDs for equality, so an abstract value suffices. -/
structure UUID where
  val : Nat
deriving DecidableEq, BEq

/-- The zero value of `uuid.UUID` (all-zero bytes), left behind by a failed
`json.Unmarshal` into a fresh envelope. -/
def UUID.zero : UUID := ⟨0⟩

/-- `SendEnvelope` is the outer structure of a message sent to LUCIDAC in the
JSONL protocol (fields `type`, `id`, `msg`). -/
structure SendEnvelope where
  type : String
  id : UUID
  msg : JsonVal

/-- `RecvEnvelope` is the outer structure of a received message from LUCIDAC
(fields `type`, `id`, `code`, `error`, `msg`). -/
structure RecvEnvelope where
  type : String
  id : UUID
  code : Int
  error : String
  msg : List (String × JsonVal)

/-- `RecvEnvelope.IsSuccess` indicates whether the envelope contains an error:
`recv.Code == 0`. -/
def RecvEnvelope.IsSuccess (recv : RecvEnvelope) : Bool :=
  recv.code == 0

/-- The zero value `&RecvEnvelope{}` that `Command` allocates before the read
loop; a failed `json.Unmarshal` leaves it untouched. -/
def zeroRecvEnvelope : RecvEnvelope :=
  { type := "", id := .zero, code := 0, error := "", msg := [] }

/-- `reflect.DeepEqual` on two decoded `SendEnvelope` values: deep equality of
all fields, including the id. -/
def deepEqualSend (a b : SendEnvelope) : Bool :=
  a.type == b.type && a.id == b.id && JsonVal.beq a.msg b.msg

/-- One line delivered by the controller's `bufio.Scanner`, abstracted by what
`json.Unmarshal` leaves in a zero-initialised target of each envelope shape.
`Command` ignores both unmarshal errors, so only the resulting values matter:
a line that does not unmarshal as the given shape leaves the zero value
(`asSend = ⟨"", UUID.zero, .null⟩`, resp. `asRecv = zeroRecvEnvelope`). -/
structure RecvLine where
  asSend : SendEnvelope
  asRecv : RecvEnvelope

/-- The controller stream as one `Command` call observes it: the outcome of
the single `Stream.Write`, the lines that `Reader.Scan` delivers, and whether
the scanner finally stopped because of an I/O error (`true`) or plain EOF
(`false`).  `Command` never calls `Reader.Err()`, so the loop merely ends
either way; the flag records that an I/O error did occur during the read. -/
structure StreamModel where
  writeErr : Option String
  lines : List RecvLine
  readErrAtEnd : Bool

/-- A Go `(value, error)` return pair where exactly one side is meaningful. -/
inductive GoResult (α : Type) where
  | ok (val : α)
  | err (msg : String)
deriving DecidableEq

/-- The warning printed by `Command` on a response type mismatch:
`fmt.Printf("Warning: Expected %s but got %s", ...)`. -/
def typeWarning (expected got : String) : String :=
  "Warning: Expected " ++ expected ++ " but got " ++ got

/-- The read loop of `HybridController.Command`: for each scanned line, first
unmarshal it as a `SendEnvelope`; if `reflect.DeepEqual` to the sent envelope,
it is an echo — `continue`.  Otherwise unmarshal it into the pre-allocated
`RecvEnvelope` (error ignored), warn if the type differs from the request
type, and `break`.  When `Scan` yields no further line the loop exits and the
current (zero) envelope is returned.  Result: the returned envelope and the
list of warnings printed. -/
def commandLoop (sent : SendEnvelope) : List RecvLine → RecvEnvelope × List String
  | [] => (zeroRecvEnvelope, [])
  | line :: rest =>
    if deepEqualSend line.asSend sent then
      commandLoop sent rest
    else
      (line.asRecv,
        if line.asRecv.type == sent.type then []
        else [typeWarning sent.type line.asRecv.type])

/-- What one call to `Command` produced: the Go return pair, whether the
stream write was attempted, and the warnings printed. -/
structure CommandOutcome where
  result : GoResult RecvEnvelope
  wrote : Bool
  warnings : List String

/-- `HybridController.Command`.  `json.Marshal` of a `SendEnvelope` whose
`Msg` is JSON data never fails, so the marshal error return is not reachable
in the model.  A `nil` controller or `nil` stream (`stream = none`) yields the
"cannot write on uninitialized HybridController" error before any write; a
write error is returned as-is; otherwise the read loop runs over the scanned
lines and the envelope it settles on is returned with a `nil` error —
regardless of `readErrAtEnd`, which the code never inspects. -/
def command (stream : Option StreamModel) (sent : SendEnvelope) : CommandOutcome :=
  match stream with
  | none =>
    { result := .err "cannot write on uninitialized HybridController"
      wrote := false
      warnings := [] }
  | some st =>
    match st.writeErr with
    | some e => { result := .err e, wrote := true, warnings := [] }
    | none =>
      let r := commandLoop sent st.lines
      { result := .ok r.1, wrote := true, warnings := r.2 }

/-! ## Endpoint URL parsing

`ParseEndpoint` delegates the URL split to Go's `net/url.Parse`.  The
functions below model `net/url` (Go standard library) on the class of
inputs an endpoint URL can be: they implement `getScheme`, the
fragment/query cuts, the authority split, `parseHost` with
`validOptionalPort` and the `encodeHost` character check, and
`splitHostPort` (behind `URL.Hostname`/`URL.Port`).  Not modelled, and
rejected or constrained instead: percent-escapes (`%xx`), bracketed IPv6
hosts (`[::1]`), and userinfo validation (the part before a `@` is split
off but not checked).  None of these occur in endpoint URLs the client or
its tests produce. -/

/-- Character codes 0x00-0x1f and 0x7f: `net/url` rejects URLs containing
an ASCII control byte (`stringContainsCTLByte`). -/
def isCTL (c : Char) : Bool :=
  decide (c.toNat < 32) || decide (c.toNat = 127)

/-- ASCII letter (the first character of a scheme must be one). -/
def isAlphaChar (c : Char) : Bool :=
  decide (97 ≤ c.toNat ∧ c.toNat ≤ 122) || decide (65 ≤ c.toNat ∧ c.toNat ≤ 90)

/-- ASCII digit. -/
def isDigitChar (c : Char) : Bool :=
  decide (48 ≤ c.toNat ∧ c.toNat ≤ 57)

/-- Characters allowed after the first character of a scheme
(`getScheme`): ALPHA / DIGIT / `+` / `-` / `.`. -/
def isSchemeTailChar (c : Char) : Bool :=
  isAlphaChar c || isDigitChar c || decide (c = '+') || decide (c = '-') || decide (c = '.')

/-- Character codes beyond alphanumerics that `shouldEscape(c, encodeHost)`
permits unescaped in a host:
`! $ & apostrophe ( ) * + , ; = : [ ] < > " - _ . ~`. -/
def hostExtraCodes : List Nat :=
  [33, 36, 38, 39, 40, 41, 42, 43, 44, 59, 61, 58, 91, 93, 60, 62, 34, 45, 95, 46, 126]

/-- A byte `net/url` accepts in a host component without escaping: non-ASCII
bytes pass through, otherwise alphanumerics and `hostExtraCodes`. -/
def isHostChar (c : Char) : Bool :=
  decide (128 ≤ c.toNat) || isAlphaChar c || isDigitChar c ||
    decide (c.toNat ∈ hostExtraCodes)

/-- `strings.Cut` at the first occurrence of `sep`: `(before, after)`, with
`after = []` when `sep` does not occur. -/
def cutChar (sep : Char) : List Char → List Char × List Char
  | [] => ([], [])
  | c :: cs =>
    if c = sep then ([], cs)
    else
      let r := cutChar sep cs
      (c :: r.1, r.2)

/-- The scan inside `getScheme` once the first character was an ALPHA:
stop at `:` returning (scheme, rest); give up (`none` = "no valid scheme")
on a character that is not a scheme character. -/
def schemeSplit : List Char → Option (List Char × List Char)
  | [] => none
  | c :: cs =>
    if c = ':' then some ([], cs)
    else if isSchemeTailChar c then
      match schemeSplit cs with
      | some r => some (c :: r.1, r.2)
      | none => none
    else none

/-- `net/url.getScheme`: `none` is the "missing protocol scheme" error (a
leading `:`); `some (scheme, rest)` otherwise, with an empty scheme when the
string has no valid `scheme:` prefix. -/
def getScheme (raw : List Char) : Option (List Char × List Char) :=
  match raw with
  | [] => some ([], [])
  | c :: _ =>
    if c = ':' then none
    else if isAlphaChar c then
      match schemeSplit raw with
      | some r => some r
      | none => some ([], raw)
    else some ([], raw)

/-- Split `l` around its last `:`, as `strings.LastIndex(l, ":")` does:
`some (before, after)` or `none` when there is no colon. -/
def splitLastColon (l : List Char) : Option (List Char × List Char) :=
  match l.reverse.dropWhile (fun c => decide (¬ c = ':')) with
  | [] => none
  | _ :: revBefore =>
    some (revBefore.reverse, (l.reverse.takeWhile (fun c => decide (¬ c = ':'))).reverse)

/-- The `unescape(host, encodeHost)` character check, with percent-escapes
out of scope: every byte must be a host character. -/
def checkHostChars (host : List Char) : Option (List Char) :=
  if host.all isHostChar then some host else none

/-- `net/url.parseHost` (non-bracketed hosts): validate the optional
`:port` suffix after the last colon (`validOptionalPort`), then the host
bytes.  Bracketed IPv6 literals are outside the model. -/
def parseHost (host : List Char) : Option (List Char) :=
  if host.take 1 = ['['] then none
  else
    match splitLastColon host with
    | some r => if r.2.all isDigitChar then checkHostChars host else none
    | none => checkHostChars host

/-- `net/url.splitHostPort` (used by `URL.Hostname` and `URL.Port`): strip a
valid numeric `:port` suffix, if any. -/
def splitHostPort (hostPort : List Char) : List Char × List Char :=
  match splitLastColon hostPort with
  | some r => if r.2.all isDigitChar then (r.1, r.2) else (hostPort, [])
  | none => (hostPort, [])

/-- The part of an authority after its last `@` (`parseAuthority` strips the
userinfo there; userinfo validation is out of scope of the model). -/
def afterLastAt (l : List Char) : List Char :=
  ((l.reverse.takeWhile (fun c => decide (¬ c = '@'))).reverse)

/-- The relevant result fields of `net/url.Parse`. -/
structure GoURL where
  scheme : List Char
  host : List Char
  path : List Char
deriving DecidableEq

/-- `URL.Hostname()`. -/
def GoURL.hostname (u : GoURL) : List Char := (splitHostPort u.host).1

/-- `URL.Port()`. -/
def GoURL.port (u : GoURL) : List Char := (splitHostPort u.host).2

/-- `net/url.parse(rest, viaRequest = false)` after the fragment was cut
off: control-byte check, scheme split, query cut, then either the
authority/path split (a `//` prefix), an opaque remainder, or a rootless
relative reference. -/
def parseList (raw : List Char) : Option GoURL :=
  if raw.any isCTL then none
  else
    match getScheme raw with
    | none => none
    | some sr =>
      let scheme := sr.1.map Char.toLower
      let rest := (cutChar '?' sr.2).1
      if rest.take 1 = ['/'] then
        if (¬ scheme = [] ∨ ¬ rest.take 3 = ['/', '/', '/']) ∧ rest.take 2 = ['/', '/'] then
          let afterSlashes := rest.drop 2
          let authority := afterSlashes.takeWhile (fun c => decide (¬ c = '/'))
          let rest2 := afterSlashes.dropWhile (fun c => decide (¬ c = '/'))
          match parseHost (afterLastAt authority) with
          | none => none
          | some h => some { scheme := scheme, host := h, path := rest2 }
        else some { scheme := scheme, host := [], path := rest }
      else
        if ¬ scheme = [] then
          some { scheme := scheme, host := [], path := [] }
        else if ((cutChar '/' rest).1).any (fun c => decide (c = ':')) then none
        else some { scheme := [], host := [], path := rest }

/-- `net/url.Parse`: cut the fragment at the first `#`, then parse. -/
def urlParseList (raw : List Char) : Option GoURL :=
  parseList ((cutChar '#' raw).1)

/-- Largest value of a 64-bit Go `int`, the range `strconv.Atoi` accepts. -/
def maxGoInt : Nat := 9223372036854775807

/-- The decimal value of a digit string, most significant digit first. -/
def digitsToNat (l : List Char) : Nat :=
  l.foldl (fun acc c => acc * 10 + (c.toNat - 48)) 0

/-- `strconv.Atoi` on the strings `URL.Port()` can return (all-digit or
empty): empty errors, and a value beyond the 64-bit `int` range errors
(`ErrRange`); signs cannot occur here. -/
def goAtoi (s : List Char) : Option Int :=
  if s ≠ [] ∧ s.all isDigitChar then
    if digitsToNat s ≤ maxGoInt then some (Int.ofNat (digitsToNat s)) else none
  else none

/-! ## Endpoints -/

/-- `TCPEndpoint` contains all information necessary to connect to a TCP/IP
endpoint (`Host string; Port int`). -/
structure TCPEndpoint where
  Host : String
  Port : Int
deriving DecidableEq

/-- `SerialEndpoint` contains all information necessary to connect to a
local USB serial device (`Device string`). -/
structure SerialEndpoint where
  Device : String
deriving DecidableEq

/-- The `Endpoint` interface, as the closed set of its two implementations. -/
inductive Endpoint where
  | tcp (e : TCPEndpoint)
  | serial (e : SerialEndpoint)
deriving DecidableEq

/-- Default TCP port for the JSONL protocol (`defaultTcpPort = 5732`). -/
def defaultTcpPort : Int := 5732

/-- `TCPEndpoint.HostPort()`: `fmt.Sprintf("%s:%d", e.Host, e.Port)`. -/
def TCPEndpoint.HostPort (e : TCPEndpoint) : String :=
  e.Host ++ ":" ++ toString e.Port

/-- `TCPEndpoint.ToURL()`: the source returns `"tcp:// " + e.HostPort()` —
with a space after the scheme separator. -/
def TCPEndpoint.ToURL (e : TCPEndpoint) : String :=
  "tcp:// " ++ e.HostPort

/-- `SerialEndpoint.ToURL()`: `"serial://" + e.Device`. -/
def SerialEndpoint.ToURL (e : SerialEndpoint) : String :=
  "serial://" ++ e.Device

/-- `ToURL` through the `Endpoint` interface. -/
def Endpoint.ToURL : Endpoint → String
  | .tcp e => e.ToURL
  | .serial e => e.ToURL

/-- `ParseEndpoint` on the character list of the URL string: translate an
endpoint URL to an endpoint structure, mirroring the Go source line by
line (the error strings stand for the formatted Go error values). -/
def ParseEndpointList (endpoint : List Char) : GoResult Endpoint :=
  match urlParseList endpoint with
  | none => .err "could not parse as Endpoint URL"
  | some u =>
    if u.host.length = 0 ∨ u.scheme.length = 0 then
      .err "need to provide an LUCIDAC Endpoint URL such as tcp://1.2.3.4 or serial://"
    else if u.scheme = "tcp".toList then
      let strport := u.port
      let hostname := u.hostname
      if strport.length = 0 then
        .ok (.tcp { Host := String.mk hostname, Port := defaultTcpPort })
      else
        match goAtoi strport with
        | none => .err "expected Port as String"
        | some port => .ok (.tcp { Host := String.mk hostname, Port := port })
    else if u.scheme = "serial".toList then
      if u.host.length = 0 ∧ ¬ u.path.length = 0 then
        .ok (.serial { Device := String.mk u.path })
      else if ¬ u.host.length = 0 ∧ u.path.length = 0 then
        .ok (.serial { Device := String.mk u.host })
      else
        .ok (.serial { Device := String.mk ('/' :: (u.host ++ u.path)) })
    else .err "do not know how to understand"

/-- `ParseEndpoint` on the URL string. -/
def ParseEndpoint (endpoint : String) : GoResult Endpoint :=
  ParseEndpointList endpoint.toList

/-! ## Discovery

`Discovery` holds two queues: `entries` (raw mDNS `ServiceEntry` records,
filled by `mdns.Lookup`) and `found` (resolved endpoints, filled by the
`checkServer` goroutine).  `FindAll`/`FindMaxOne` select between a receive
on `found` and `time.After(1 * time.Second)`, then call `Close`, which
closes both channels.  The select race is modelled by its outcome; channel
closure is modelled as observable state with a call counter. -/

/-- The fields of an `mdns.ServiceEntry` that `checkServer` reads, with the
announced IPv4 address already rendered by `net.IP.String()`. -/
structure ServiceEntry where
  Host : String
  AddrV4 : String

/-- The per-record body of `Discovery.checkServer`: resolve the record's
hostname with `net.LookupIP` (`none` models a resolution error); if any
resolved address renders equal to the announced `AddrV4`, the candidate uses
the hostname, otherwise the raw announced address — on `defaultTcpPort`
either way. -/
def checkServerStep (lookupIP : String → Option (List String))
    (entry : ServiceEntry) : TCPEndpoint :=
  let resolvableIPv4 :=
    match lookupIP entry.Host with
    | none => false
    | some ips => ips.any (fun ip => ip == entry.AddrV4)
  if resolvableIPv4 then { Host := entry.Host, Port := defaultTcpPort }
  else { Host := entry.AddrV4, Port := defaultTcpPort }

/-- `Discovery.checkServer` over the queue of records it drains. -/
def checkServer (lookupIP : String → Option (List String))
    (entries : List ServiceEntry) : List Endpoint :=
  entries.map (fun e => .tcp (checkServerStep lookupIP e))

/-- The closure state of a discovery session's two channels, with a counter
of `Close` calls. -/
structure DiscoveryState where
  entriesClosed : Bool
  foundClosed : Bool
  closeCalls : Nat

/-- The session state `NewDiscovery` hands out: both channels open. -/
def NewDiscoveryState : DiscoveryState :=
  { entriesClosed := false, foundClosed := false, closeCalls := 0 }

/-- `Discovery.Close`: `close(d.entries); close(d.found)`. -/
def DiscoveryClose (d : DiscoveryState) : DiscoveryState :=
  { entriesClosed := true, foundClosed := true, closeCalls := d.closeCalls + 1 }

/-- Outcome of the `select` racing a receive on `d.found` against
`time.After(1 * time.Second)`. -/
inductive SelectOutcome where
  | found (e : TCPEndpoint)
  | timedOut
deriving DecidableEq

/-- `Discovery.FindAll`: one `select`, then `d.Close()`, then return the
collected results. -/
def FindAll (d : DiscoveryState) (o : SelectOutcome) :
    List Endpoint × DiscoveryState :=
  match o with
  | .found e => ([.tcp e], DiscoveryClose d)
  | .timedOut => ([], DiscoveryClose d)

/-- `Discovery.FindMaxOne`: one `select`, then `d.Close()`; `none` models the
`ok = false` timeout return. -/
def FindMaxOne (d : DiscoveryState) (o : SelectOutcome) :
    Option TCPEndpoint × DiscoveryState :=
  match o with
  | .found e => (some e, DiscoveryClose d)
  | .timedOut => (none, DiscoveryClose d)

/-- What a Go channel send does, per the Go language specification ("Send
statements"): a send on a closed channel proceeds by causing a run-time
panic; otherwise the value is delivered. -/
inductive ChanSendResult where
  | delivered
  | panicked
deriving DecidableEq

/-- Go channel send against a channel's closure state. -/
def chanSend (chanClosed : Bool) : ChanSendResult :=
  if chanClosed then .panicked else .delivered

/-- The `d.found <- endpoint` send a `checkServer` step performs for a late
record, against the session state at that moment. -/
def checkServerSendFound (d : DiscoveryState) : ChanSendResult :=
  chanSend d.foundClosed

/-! ## List lemmas for the URL parser -/

theorem any_eq_false_of_all {α : Type} {p : α → Bool} {l : List α}
    (h : ∀ x ∈ l, p x = false) : l.any p = false := by
  induction l with
  | nil => rfl
  | cons x xs ih =>
    rw [List.any_cons, h x (by simp), ih (fun y hy => h y (by simp [hy]))]
    rfl

theorem takeWhile_eq_self_of_all {α : Type} {p : α → Bool} {l : List α}
    (h : ∀ x ∈ l, p x = true) : l.takeWhile p = l := by
  induction l with
  | nil => rfl
  | cons x xs ih =>
    rw [List.takeWhile_cons, h x (by simp)]
    simp [ih (fun y hy => h y (by simp [hy]))]

theorem dropWhile_eq_nil_of_all {α : Type} {p : α → Bool} {l : List α}
    (h : ∀ x ∈ l, p x = true) : l.dropWhile p = [] := by
  induction l with
  | nil => rfl
  | cons x xs ih =>
    rw [List.dropWhile_cons, h x (by simp)]
    simp [ih (fun y hy => h y (by simp [hy]))]

theorem takeWhile_append_stop {α : Type} {p : α → Bool} {a : List α} {b : α}
    {t : List α} (ha : ∀ x ∈ a, p x = true) (hb : p b = false) :
    (a ++ b :: t).takeWhile p = a := by
  induction a with
  | nil => simp [List.takeWhile_cons, hb]
  | cons x xs ih =>
    rw [List.cons_append, List.takeWhile_cons, ha x (by simp)]
    simp [ih (fun y hy => ha y (by simp [hy]))]

theorem dropWhile_append_stop {α : Type} {p : α → Bool} {a : List α} {b : α}
    {t : List α} (ha : ∀ x ∈ a, p x = true) (hb : p b = false) :
    (a ++ b :: t).dropWhile p = b :: t := by
  induction a with
  | nil => simp [List.dropWhile_cons, hb]
  | cons x xs ih =>
    rw [List.cons_append, List.dropWhile_cons, ha x (by simp)]
    simp [ih (fun y hy => ha y (by simp [hy]))]

theorem cutChar_eq_self {sep : Char} {l : List Char}
    (h : ∀ c ∈ l, ¬ c = sep) : cutChar sep l = (l, []) := by
  induction l with
  | nil => rfl
  | cons x xs ih =>
    rw [cutChar, if_neg (h x (by simp)), ih (fun y hy => h y (by simp [hy]))]

theorem afterLastAt_eq_self {l : List Char} (h : ∀ c ∈ l, ¬ c = '@') :
    afterLastAt l = l := by
  unfold afterLastAt
  rw [takeWhile_eq_self_of_all
      (fun c hc => by simpa using h c (List.mem_reverse.mp hc))]
  exact l.reverse_reverse

theorem splitLastColon_eq_none {l : List Char} (h : ∀ c ∈ l, ¬ c = ':') :
    splitLastColon l = none := by
  unfold splitLastColon
  rw [dropWhile_eq_nil_of_all
      (fun c hc => by simpa using h c (List.mem_reverse.mp hc))]

theorem splitLastColon_append {a p : List Char}
    (ha : ∀ c ∈ a, ¬ c = ':') (hp : ∀ c ∈ p, ¬ c = ':') :
    splitLastColon (a ++ ':' :: p) = some (a, p) := by
  unfold splitLastColon
  have hrev : (a ++ ':' :: p).reverse = p.reverse ++ ':' :: a.reverse := by
    simp [List.reverse_append]
  have hmem : ∀ c ∈ p.reverse, (fun c => decide (¬ c = ':')) c = true :=
    fun c hc => by simpa using hp c (List.mem_reverse.mp hc)
  rw [hrev, dropWhile_append_stop hmem (by simp),
      takeWhile_append_stop hmem (by simp)]
  simp

/-! ## Character class lemmas -/

/-- A character that can sit in the host part of an endpoint URL without
interfering with any delimiter handled by `net/url.Parse`: a host byte that
is none of `:`, `/`, `?`, `#`, `@`, `[`, `]`. -/
def SimpleHostChar (c : Char) : Prop :=
  isHostChar c = true ∧ ¬ c = ':' ∧ ¬ c = '/' ∧ ¬ c = '?' ∧ ¬ c = '#' ∧
    ¬ c = '@' ∧ ¬ c = '[' ∧ ¬ c = ']'

instance : DecidablePred SimpleHostChar := fun c => by
  unfold SimpleHostChar; infer_instance

/-- A character the model handles in the path part of an endpoint URL:
not a control byte and none of `?`, `#`, `%` (percent-escapes are outside
the model). -/
def PathChar (c : Char) : Prop :=
  isCTL c = false ∧ ¬ c = '?' ∧ ¬ c = '#' ∧ ¬ c = '%'

instance : DecidablePred PathChar := fun c => by
  unfold PathChar; infer_instance

theorem isCTL_eq_false_of_isHostChar {c : Char} (h : isHostChar c = true) :
    isCTL c = false := by
  simp only [isHostChar, Bool.or_eq_true, decide_eq_true_eq, isAlphaChar,
    isDigitChar, hostExtraCodes, List.mem_cons, List.not_mem_nil, or_false] at h
  simp only [isCTL, Bool.or_eq_false_iff, decide_eq_false_iff_not]
  omega

theorem isHostChar_of_digit {c : Char} (h : isDigitChar c = true) :
    isHostChar c = true := by
  simp [isHostChar, h]

/-- ASCII digits are never the delimiters excluded by `SimpleHostChar`. -/
theorem digit_ne_of_code {c : Char} (h : isDigitChar c = true) {d : Char}
    (hd : d.toNat < 48 ∨ 57 < d.toNat) : ¬ c = d := by
  simp only [isDigitChar, decide_eq_true_eq] at h
  intro hcd
  subst hcd
  omega

/-! ## Parser reduction lemmas -/

theorem getScheme_tcp (rest : List Char) :
    getScheme ('t' :: 'c' :: 'p' :: ':' :: rest) = some (['t', 'c', 'p'], rest) := rfl

theorem getScheme_serial (rest : List Char) :
    getScheme ('s' :: 'e' :: 'r' :: 'i' :: 'a' :: 'l' :: ':' :: rest) =
      some (['s', 'e', 'r', 'i', 'a', 'l'], rest) := rfl

theorem urlParseList_eq_parseList {raw : List Char} (h : ∀ c ∈ raw, ¬ c = '#') :
    urlParseList raw = parseList raw := by
  unfold urlParseList
  rw [cutChar_eq_self h]

/-- Reduction of `parseList` on an authority-shaped remainder: once the
scheme is split off and `rest = // ++ a` with no `?` in `a`, parsing comes
down to the authority/path cut and `parseHost`. -/
theorem parseList_authority {sch a raw : List Char}
    (hgs : getScheme raw = some (sch, '/' :: '/' :: a))
    (hctl : raw.any isCTL = false)
    (hnoq : ∀ c ∈ a, ¬ c = '?')
    (hsch : ¬ sch.map Char.toLower = []) :
    parseList raw =
      (parseHost (afterLastAt (a.takeWhile (fun c => decide (¬ c = '/'))))).map
        (fun h =>
          { scheme := sch.map Char.toLower, host := h,
            path := a.dropWhile (fun c => decide (¬ c = '/')) }) := by
  have hcut : cutChar '?' ('/' :: '/' :: a) = ('/' :: '/' :: a, []) :=
    cutChar_eq_self (by
      intro c hc
      rcases hc with _ | ⟨_, hc⟩
      · decide
      · rcases hc with _ | ⟨_, hc⟩
        · decide
        · exact hnoq c hc)
  unfold parseList
  rw [hctl, hgs]
  simp only [Bool.false_eq_true, if_false, hcut]
  rw [if_pos (show List.take 1 ('/' :: '/' :: a) = ['/'] by simp),
      if_pos (show (¬ List.map Char.toLower sch = [] ∨
          ¬ List.take 3 ('/' :: '/' :: a) = ['/', '/', '/']) ∧
          List.take 2 ('/' :: '/' :: a) = ['/', '/'] from ⟨Or.inl hsch, by simp⟩)]
  simp only [List.drop_succ_cons, List.drop_zero]
  cases parseHost (afterLastAt (a.takeWhile (fun c => decide (¬ c = '/')))) <;> rfl

theorem parseHost_simple {h : List Char} (hne : ¬ h = [])
    (hh : ∀ c ∈ h, SimpleHostChar c) : parseHost h = some h := by
  have htake : ¬ h.take 1 = ['['] := by
    cases h with
    | nil => exact absurd rfl hne
    | cons x xs =>
      simp only [List.take_succ_cons, List.take_zero]
      intro hx
      exact (hh x (by simp)).2.2.2.2.2.2.1 (by injection hx)
  unfold parseHost
  rw [if_neg htake, splitLastColon_eq_none (fun c hc => (hh c hc).2.1)]
  unfold checkHostChars
  rw [if_pos (List.all_eq_true.mpr (fun c hc => (hh c hc).1))]

theorem hostChars_with_port {h p : List Char}
    (hh : ∀ c ∈ h, SimpleHostChar c) (hp : ∀ c ∈ p, isDigitChar c = true) :
    ∀ c ∈ h ++ ':' :: p, isHostChar c = true := by
  intro c hc
  rcases List.mem_append.mp hc with hc | hc
  · exact (hh c hc).1
  · rcases List.mem_cons.mp hc with rfl | hc
    · decide
    · exact isHostChar_of_digit (hp c hc)

theorem parseHost_with_port {h p : List Char} (hne : ¬ h = [])
    (hh : ∀ c ∈ h, SimpleHostChar c) (hp : ∀ c ∈ p, isDigitChar c = true) :
    parseHost (h ++ ':' :: p) = some (h ++ ':' :: p) := by
  have htake : ¬ (h ++ ':' :: p).take 1 = ['['] := by
    cases h with
    | nil => exact absurd rfl hne
    | cons x xs =>
      simp only [List.cons_append, List.take_succ_cons, List.take_zero]
      intro hx
      exact (hh x (by simp)).2.2.2.2.2.2.1 (by injection hx)
  unfold parseHost
  rw [if_neg htake,
      splitLastColon_append (fun c hc => (hh c hc).2.1)
        (fun c hc => digit_ne_of_code (hp c hc) (by decide))]
  show (if p.all isDigitChar = true then checkHostChars (h ++ ':' :: p) else none)
      = some (h ++ ':' :: p)
  rw [if_pos (List.all_eq_true.mpr hp)]
  unfold checkHostChars
  rw [if_pos (List.all_eq_true.mpr (hostChars_with_port hh hp))]

theorem splitHostPort_simple {h : List Char}
    (hh : ∀ c ∈ h, SimpleHostChar c) : splitHostPort h = (h, []) := by
  unfold splitHostPort
  rw [splitLastColon_eq_none (fun c hc => (hh c hc).2.1)]

theorem splitHostPort_with_port {h p : List Char}
    (hh : ∀ c ∈ h, SimpleHostChar c) (hp : ∀ c ∈ p, isDigitChar c = true) :
    splitHostPort (h ++ ':' :: p) = (h, p) := by
  unfold splitHostPort
  rw [splitLastColon_append (fun c hc => (hh c hc).2.1)
      (fun c hc => digit_ne_of_code (hp c hc) (by decide))]
  show (if p.all isDigitChar = true then (h, p) else (h ++ ':' :: p, [])) = (h, p)
  rw [if_pos (List.all_eq_true.mpr hp)]

/-- `net/url.Parse` on `tcp://` followed by an authority remainder. -/
theorem urlParseList_tcp {a : List Char}
    (hctl : ∀ c ∈ a, isCTL c = false)
    (hnoq : ∀ c ∈ a, ¬ c = '?') (hnohash : ∀ c ∈ a, ¬ c = '#') :
    urlParseList ('t' :: 'c' :: 'p' :: ':' :: '/' :: '/' :: a) =
      (parseHost (afterLastAt (a.takeWhile (fun c => decide (¬ c = '/'))))).map
        (fun h =>
          { scheme := ['t', 'c', 'p'], host := h,
            path := a.dropWhile (fun c => decide (¬ c = '/')) }) := by
  have hraw : ∀ c ∈ ('t' :: 'c' :: 'p' :: ':' :: '/' :: '/' :: a), ¬ c = '#' := by
    intro c hc
    simp only [List.mem_cons] at hc
    rcases hc with rfl | rfl | rfl | rfl | rfl | rfl | hc
    · decide
    · decide
    · decide
    · decide
    · decide
    · decide
    · exact hnohash c hc
  have hctlraw : ('t' :: 'c' :: 'p' :: ':' :: '/' :: '/' :: a).any isCTL = false := by
    apply any_eq_false_of_all
    intro c hc
    simp only [List.mem_cons] at hc
    rcases hc with rfl | rfl | rfl | rfl | rfl | rfl | hc
    · decide
    · decide
    · decide
    · decide
    · decide
    · decide
    · exact hctl c hc
  rw [urlParseList_eq_parseList hraw,
      parseList_authority (getScheme_tcp ('/' :: '/' :: a)) hctlraw hnoq (by decide)]
  rfl

/-- `net/url.Parse` on `serial://` followed by an authority remainder. -/
theorem urlParseList_serial {a : List Char}
    (hctl : ∀ c ∈ a, isCTL c = false)
    (hnoq : ∀ c ∈ a, ¬ c = '?') (hnohash : ∀ c ∈ a, ¬ c = '#') :
    urlParseList ('s' :: 'e' :: 'r' :: 'i' :: 'a' :: 'l' :: ':' :: '/' :: '/' :: a) =
      (parseHost (afterLastAt (a.takeWhile (fun c => decide (¬ c = '/'))))).map
        (fun h =>
          { scheme := ['s', 'e', 'r', 'i', 'a', 'l'], host := h,
            path := a.dropWhile (fun c => decide (¬ c = '/')) }) := by
  have hraw : ∀ c ∈ ('s' :: 'e' :: 'r' :: 'i' :: 'a' :: 'l' :: ':' :: '/' :: '/' :: a),
      ¬ c = '#' := by
    intro c hc
    simp only [List.mem_cons] at hc
    rcases hc with rfl | rfl | rfl | rfl | rfl | rfl | rfl | rfl | rfl | hc
    · decide
    · decide
    · decide
    · decide
    · decide
    · decide
    · decide
    · decide
    · decide
    · exact hnohash c hc
  have hctlraw :
      ('s' :: 'e' :: 'r' :: 'i' :: 'a' :: 'l' :: ':' :: '/' :: '/' :: a).any isCTL
        = false := by
    apply any_eq_false_of_all
    intro c hc
    simp only [List.mem_cons] at hc
    rcases hc with rfl | rfl | rfl | rfl | rfl | rfl | rfl | rfl | rfl | hc
    · decide
    · decide
    · decide
    · decide
    · decide
    · decide
    · decide
    · decide
    · decide
    · exact hctl c hc
  rw [urlParseList_eq_parseList hraw,
      parseList_authority (getScheme_serial ('/' :: '/' :: a)) hctlraw hnoq (by decide)]
  rfl

theorem goAtoi_ok {p : List Char} (hpne : ¬ p = [])
    (hp : ∀ c ∈ p, isDigitChar c = true) (hle : digitsToNat p ≤ maxGoInt) :
    goAtoi p = some (Int.ofNat (digitsToNat p)) := by
  unfold goAtoi
  rw [if_pos ⟨hpne, List.all_eq_true.mpr hp⟩, if_pos hle]

theorem goAtoi_overflow {p : List Char} (hpne : ¬ p = [])
    (hp : ∀ c ∈ p, isDigitChar c = true) (hgt : ¬ digitsToNat p ≤ maxGoInt) :
    goAtoi p = none := by
  unfold goAtoi
  rw [if_pos ⟨hpne, List.all_eq_true.mpr hp⟩, if_neg hgt]

/-- `ParseEndpoint` on `tcp://h` for a nonempty simple host `h`: the port
defaults to 5732. -/
theorem parse_tcp_noport {h : List Char} (hne : ¬ h = [])
    (hh : ∀ c ∈ h, SimpleHostChar c) :
    ParseEndpointList ('t' :: 'c' :: 'p' :: ':' :: '/' :: '/' :: h) =
      .ok (.tcp { Host := String.mk h, Port := defaultTcpPort }) := by
  have hnosl : ∀ c ∈ h, (fun c => decide (¬ c = '/')) c = true :=
    fun c hc => by simpa using (hh c hc).2.2.1
  unfold ParseEndpointList
  rw [urlParseList_tcp
        (fun c hc => isCTL_eq_false_of_isHostChar (hh c hc).1)
        (fun c hc => (hh c hc).2.2.2.1)
        (fun c hc => (hh c hc).2.2.2.2.1),
      takeWhile_eq_self_of_all hnosl,
      afterLastAt_eq_self (fun c hc => (hh c hc).2.2.2.2.2.1),
      parseHost_simple hne hh,
      dropWhile_eq_nil_of_all hnosl]
  simp only [Option.map_some']
  rw [if_neg (by simp [List.length_eq_zero, hne]),
      if_pos (show (['t', 'c', 'p'] : List Char) = "tcp".toList from rfl)]
  simp only [GoURL.port, GoURL.hostname, splitHostPort_simple hh]
  rw [if_pos (show (([] : List Char)).length = 0 from rfl)]

/-- `ParseEndpoint` on `tcp://h:p` for a nonempty simple host `h` and a
nonempty digit string `p`: `strconv.Atoi` decides the port. -/
theorem parse_tcp_with_port_core {h p : List Char} (hne : ¬ h = [])
    (hh : ∀ c ∈ h, SimpleHostChar c) (hp : ∀ c ∈ p, isDigitChar c = true)
    (hpne : ¬ p = []) :
    ParseEndpointList ('t' :: 'c' :: 'p' :: ':' :: '/' :: '/' :: (h ++ ':' :: p)) =
      match goAtoi p with
      | none => .err "expected Port as String"
      | some port => .ok (.tcp { Host := String.mk h, Port := port }) := by
  have hnosl : ∀ c ∈ h ++ ':' :: p, (fun c => decide (¬ c = '/')) c = true := by
    intro c hc
    rcases List.mem_append.mp hc with hc | hc
    · simpa using (hh c hc).2.2.1
    · rcases List.mem_cons.mp hc with rfl | hc
      · decide
      · simpa using digit_ne_of_code (hp c hc) (by decide)
  have hnoat : ∀ c ∈ h ++ ':' :: p, ¬ c = '@' := by
    intro c hc
    rcases List.mem_append.mp hc with hc | hc
    · exact (hh c hc).2.2.2.2.2.1
    · rcases List.mem_cons.mp hc with rfl | hc
      · decide
      · exact digit_ne_of_code (hp c hc) (by decide)
  have hnoq : ∀ c ∈ h ++ ':' :: p, ¬ c = '?' := by
    intro c hc
    rcases List.mem_append.mp hc with hc | hc
    · exact (hh c hc).2.2.2.1
    · rcases List.mem_cons.mp hc with rfl | hc
      · decide
      · exact digit_ne_of_code (hp c hc) (by decide)
  have hnohash : ∀ c ∈ h ++ ':' :: p, ¬ c = '#' := by
    intro c hc
    rcases List.mem_append.mp hc with hc | hc
    · exact (hh c hc).2.2.2.2.1
    · rcases List.mem_cons.mp hc with rfl | hc
      · decide
      · exact digit_ne_of_code (hp c hc) (by decide)
  unfold ParseEndpointList
  rw [urlParseList_tcp
        (fun c hc => isCTL_eq_false_of_isHostChar (hostChars_with_port hh hp c hc))
        hnoq hnohash,
      takeWhile_eq_self_of_all hnosl,
      afterLastAt_eq_self hnoat,
      parseHost_with_port hne hh hp,
      dropWhile_eq_nil_of_all hnosl]
  simp only [Option.map_some']
  rw [if_neg (by simp [List.length_eq_zero, hne]),
      if_pos (show (['t', 'c', 'p'] : List Char) = "tcp".toList from rfl)]
  simp only [GoURL.port, GoURL.hostname, splitHostPort_with_port hh hp]
  rw [if_neg (by simp [List.length_eq_zero, hpne])]

/-- `ParseEndpoint` on `serial://auth` for a nonempty simple authority:
the authority itself becomes the device path. -/
theorem parse_serial_auth {auth : List Char} (hne : ¬ auth = [])
    (hh : ∀ c ∈ auth, SimpleHostChar c) :
    ParseEndpointList
        ('s' :: 'e' :: 'r' :: 'i' :: 'a' :: 'l' :: ':' :: '/' :: '/' :: auth) =
      .ok (.serial { Device := String.mk auth }) := by
  have hnosl : ∀ c ∈ auth, (fun c => decide (¬ c = '/')) c = true :=
    fun c hc => by simpa using (hh c hc).2.2.1
  unfold ParseEndpointList
  rw [urlParseList_serial
        (fun c hc => isCTL_eq_false_of_isHostChar (hh c hc).1)
        (fun c hc => (hh c hc).2.2.2.1)
        (fun c hc => (hh c hc).2.2.2.2.1),
      takeWhile_eq_self_of_all hnosl,
      afterLastAt_eq_self (fun c hc => (hh c hc).2.2.2.2.2.1),
      parseHost_simple hne hh,
      dropWhile_eq_nil_of_all hnosl]
  simp only [Option.map_some']
  rw [if_neg (show ¬ (auth.length = 0 ∨ (['s', 'e', 'r', 'i', 'a', 'l'] : List Char).length = 0)
        by simp [List.length_eq_zero, hne]),
      if_neg (show ¬ (['s', 'e', 'r', 'i', 'a', 'l'] : List Char) = "tcp".toList by decide),
      if_pos (show (['s', 'e', 'r', 'i', 'a', 'l'] : List Char) = "serial".toList from rfl),
      if_neg (show ¬ (auth.length = 0 ∧ ¬ ([] : List Char).length = 0) by simp),
      if_pos (show ¬ auth.length = 0 ∧ ([] : List Char).length = 0
        from ⟨by simp [List.length_eq_zero, hne], rfl⟩)]

/-- `ParseEndpoint` on `serial://auth/path`: authority and path are both
present, so the device is `/` + authority + path. -/
theorem parse_serial_auth_path {auth pp : List Char} (hne : ¬ auth = [])
    (hh : ∀ c ∈ auth, SimpleHostChar c) (hpp : ∀ c ∈ pp, PathChar c) :
    ParseEndpointList
        ('s' :: 'e' :: 'r' :: 'i' :: 'a' :: 'l' :: ':' :: '/' :: '/' ::
          (auth ++ '/' :: pp)) =
      .ok (.serial { Device := String.mk ('/' :: (auth ++ '/' :: pp)) }) := by
  have hauthsl : ∀ c ∈ auth, (fun c => decide (¬ c = '/')) c = true :=
    fun c hc => by simpa using (hh c hc).2.2.1
  have hnoq : ∀ c ∈ auth ++ '/' :: pp, ¬ c = '?' := by
    intro c hc
    rcases List.mem_append.mp hc with hc | hc
    · exact (hh c hc).2.2.2.1
    · rcases List.mem_cons.mp hc with rfl | hc
      · decide
      · exact (hpp c hc).2.1
  have hnohash : ∀ c ∈ auth ++ '/' :: pp, ¬ c = '#' := by
    intro c hc
    rcases List.mem_append.mp hc with hc | hc
    · exact (hh c hc).2.2.2.2.1
    · rcases List.mem_cons.mp hc with rfl | hc
      · decide
      · exact (hpp c hc).2.2.1
  have hctl : ∀ c ∈ auth ++ '/' :: pp, isCTL c = false := by
    intro c hc
    rcases List.mem_append.mp hc with hc | hc
    · exact isCTL_eq_false_of_isHostChar (hh c hc).1
    · rcases List.mem_cons.mp hc with rfl | hc
      · decide
      · exact (hpp c hc).1
  unfold ParseEndpointList
  rw [urlParseList_serial hctl hnoq hnohash,
      takeWhile_append_stop hauthsl (by simp),
      dropWhile_append_stop hauthsl (by simp),
      afterLastAt_eq_self (fun c hc => (hh c hc).2.2.2.2.2.1),
      parseHost_simple hne hh]
  simp only [Option.map_some']
  rw [if_neg (show ¬ (auth.length = 0 ∨ (['s', 'e', 'r', 'i', 'a', 'l'] : List Char).length = 0)
        by simp [List.length_eq_zero, hne]),
      if_neg (show ¬ (['s', 'e', 'r', 'i', 'a', 'l'] : List Char) = "tcp".toList by decide),
      if_pos (show (['s', 'e', 'r', 'i', 'a', 'l'] : List Char) = "serial".toList from rfl),
      if_neg (show ¬ (auth.length = 0 ∧ ¬ ('/' :: pp).length = 0)
        by simp [List.length_eq_zero, hne]),
      if_neg (show ¬ (¬ auth.length = 0 ∧ ('/' :: pp).length = 0) by simp)]

/-- `ParseEndpoint` on `serial:///path`: the authority is empty, so the
overall empty-host guard rejects the URL before the serial branch runs. -/
theorem parse_serial_absolute {pp : List Char} (hpp : ∀ c ∈ pp, PathChar c) :
    ParseEndpointList
        ('s' :: 'e' :: 'r' :: 'i' :: 'a' :: 'l' :: ':' :: '/' :: '/' :: '/' :: pp) =
      .err "need to provide an LUCIDAC Endpoint URL such as tcp://1.2.3.4 or serial://" := by
  have hnoq : ∀ c ∈ '/' :: pp, ¬ c = '?' := by
    intro c hc
    rcases List.mem_cons.mp hc with rfl | hc
    · decide
    · exact (hpp c hc).2.1
  have hnohash : ∀ c ∈ '/' :: pp, ¬ c = '#' := by
    intro c hc
    rcases List.mem_cons.mp hc with rfl | hc
    · decide
    · exact (hpp c hc).2.2.1
  have hctl : ∀ c ∈ '/' :: pp, isCTL c = false := by
    intro c hc
    rcases List.mem_cons.mp hc with rfl | hc
    · decide
    · exact (hpp c hc).1
  unfold ParseEndpointList
  rw [urlParseList_serial hctl hnoq hnohash]
  rw [show List.takeWhile (fun c => decide (¬ c = '/')) ('/' :: pp) = [] by
        rw [List.takeWhile_cons]; simp]
  rw [show afterLastAt [] = [] from rfl, show parseHost [] = some [] from rfl]
  simp only [Option.map_some']
  rw [if_pos (show ([] : List Char).length = 0 ∨
      (['s', 'e', 'r', 'i', 'a', 'l'] : List Char).length = 0 from Or.inl rfl)]

/-! ## Lemmas on the Command read loop -/

theorem commandLoop_append_echoes (sent : SendEnvelope) {echoes : List RecvLine}
    (tail : List RecvLine)
    (hecho : ∀ e ∈ echoes, deepEqualSend e.asSend sent = true) :
    commandLoop sent (echoes ++ tail) = commandLoop sent tail := by
  induction echoes with
  | nil => rfl
  | cons x xs ih =>
    rw [List.cons_append]
    show (if deepEqualSend x.asSend sent then commandLoop sent (xs ++ tail)
        else (x.asRecv, if x.asRecv.type == sent.type then []
          else [typeWarning sent.type x.asRecv.type])) = commandLoop sent tail
    rw [if_pos (hecho x (by simp))]
    exact ih (fun e he => hecho e (by simp [he]))

theorem commandLoop_cons_reply (sent : SendEnvelope) (line : RecvLine)
    (rest : List RecvLine) (hline : deepEqualSend line.asSend sent = false) :
    commandLoop sent (line :: rest) =
      (line.asRecv, if line.asRecv.type == sent.type then []
        else [typeWarning sent.type line.asRecv.type]) := by
  show (if deepEqualSend line.asSend sent then commandLoop sent rest
      else (line.asRecv, if line.asRecv.type == sent.type then []
        else [typeWarning sent.type line.asRecv.type])) = _
  rw [hline]
  simp

/-! ## Concrete protocol data for witnesses -/

/-- A concrete request envelope (`{type: "net_status"}` with a fixed id). -/
def sampleSent : SendEnvelope := { type := "net_status", id := ⟨1⟩, msg := .null }

/-- A transport echo line of `sampleSent`: it deserialises as a request to
exactly the sent envelope. -/
def sampleEcho : RecvLine := { asSend := sampleSent, asRecv := zeroRecvEnvelope }

/-- A genuine reply line: as a request shape it decodes to something other
than the sent envelope; as a response it carries a success payload. -/
def sampleReply : RecvLine :=
  { asSend := { type := "net_status", id := .zero, msg := .null },
    asRecv := { type := "net_status", id := ⟨1⟩, code := 0, error := "",
                msg := [("ip", .str "10.0.0.5")] } }

/-- A reply line whose response has a different type and a different id than
the request. -/
def mismatchReply : RecvLine :=
  { asSend := { type := "", id := .zero, msg := .null },
    asRecv := { type := "status", id := ⟨2⟩, code := 0, error := "", msg := [] } }

/-- A line that deserialises neither as the echoed request nor as a response
envelope: both decodes are left at their zero values. -/
def garbageLine : RecvLine :=
  { asSend := { type := "", id := .zero, msg := .null },
    asRecv := zeroRecvEnvelope }

/-! ## Claims -/

/-- C1: if the transport first returns one or more lines that are exact
echoes of the outbound line (deserialising to a request deep-equal to the
sent envelope, id included), `Command` discards each echo, keeps reading,
and returns the first subsequent non-identical line as the response —
never the echo itself. -/
theorem command_returns_first_non_echo
    (sent : SendEnvelope) (echoes : List RecvLine) (line : RecvLine)
    (rest : List RecvLine) (st : StreamModel)
    (hw : st.writeErr = none)
    (hlines : st.lines = echoes ++ line :: rest)
    (hecho : ∀ e ∈ echoes, deepEqualSend e.asSend sent = true)
    (hline : deepEqualSend line.asSend sent = false) :
    (command (some st) sent).result = .ok line.asRecv := by
  obtain ⟨w, l, r⟩ := st
  cases hw
  cases hlines
  show GoResult.ok (commandLoop sent (echoes ++ line :: rest)).1 = .ok line.asRecv
  rw [commandLoop_append_echoes sent (line :: rest) hecho,
      commandLoop_cons_reply sent line rest hline]

/-- C1 witness: an echoed `net_status` request followed by the genuine
reply; `Command` returns the reply. -/
theorem command_returns_first_non_echo_witness :
    (command (some ⟨none, [sampleEcho, sampleReply], false⟩) sampleSent).result
      = .ok sampleReply.asRecv :=
  command_returns_first_non_echo sampleSent [sampleEcho] sampleReply []
    ⟨none, [sampleEcho, sampleReply], false⟩ rfl rfl (by decide) (by decide)

/-- C2 counterexample: a call whose write succeeds and whose read loop ends
with an I/O error before any line arrives (`Scan` returns false, error never
inspected) returns the zero envelope with a nil error — the read error is
not surfaced to the caller, contradicting the claim. -/
theorem command_read_error_swallowed_cex :
    (command (some { writeErr := none, lines := [], readErrAtEnd := true })
        sampleSent).result = .ok zeroRecvEnvelope := rfl

/-- C2 (amended): a nil controller or stream yields the
"cannot write on uninitialized HybridController" error without writing, and
a write error aborts the call and is returned; but an I/O error during the
read loop is swallowed: `Reader.Err()` is never consulted, the loop simply
ends, and `Command` returns the current (zero) envelope with a nil error. -/
theorem command_error_paths_amended (sent : SendEnvelope) :
    ((command none sent).result = .err "cannot write on uninitialized HybridController"
        ∧ (command none sent).wrote = false)
    ∧ (∀ st : StreamModel, ∀ e, st.writeErr = some e →
        (command (some st) sent).result = .err e)
    ∧ (∀ st : StreamModel, st.writeErr = none →
        (command (some st) sent).result = .ok (commandLoop sent st.lines).1) := by
  refine ⟨⟨rfl, rfl⟩, ?_, ?_⟩
  · intro st e he
    obtain ⟨w, l, r⟩ := st
    cases he
    rfl
  · intro st he
    obtain ⟨w, l, r⟩ := st
    cases he
    rfl

/-- C2 witness: a failing write is returned verbatim. -/
theorem command_error_paths_amended_witness :
    (command (some ⟨some "broken pipe", [], false⟩) sampleSent).result
      = .err "broken pipe" :=
  (command_error_paths_amended sampleSent).2.1
    ⟨some "broken pipe", [], false⟩ "broken pipe" rfl

/-- C9: a response whose type differs from the request type is warned about
but still accepted and returned, and the response id — here different from
the request id — is never compared for correlation. -/
theorem command_type_mismatch_warn_accept
    (sent : SendEnvelope) (line : RecvLine) (rest : List RecvLine)
    (st : StreamModel)
    (hw : st.writeErr = none) (hlines : st.lines = line :: rest)
    (hnoecho : deepEqualSend line.asSend sent = false)
    (htype : ¬ line.asRecv.type = sent.type)
    (hid : ¬ line.asRecv.id = sent.id) :
    (command (some st) sent).result = .ok line.asRecv ∧
    (command (some st) sent).warnings = [typeWarning sent.type line.asRecv.type] := by
  obtain ⟨w, l, r⟩ := st
  cases hw
  cases hlines
  have hweq : (line.asRecv.type == sent.type) = false := by
    simp [htype]
  constructor
  · show GoResult.ok (commandLoop sent (line :: rest)).1 = .ok line.asRecv
    rw [commandLoop_cons_reply sent line rest hnoecho]
  · show (commandLoop sent (line :: rest)).2 = _
    rw [commandLoop_cons_reply sent line rest hnoecho]
    simp [hweq]

/-- C9 witness: a `status` reply to a `net_status` request, with a foreign
id, is returned with exactly the mismatch warning. -/
theorem command_type_mismatch_warn_accept_witness :
    (command (some ⟨none, [mismatchReply], false⟩) sampleSent).result
      = .ok mismatchReply.asRecv ∧
    (command (some ⟨none, [mismatchReply], false⟩) sampleSent).warnings
      = [typeWarning sampleSent.type mismatchReply.asRecv.type] :=
  command_type_mismatch_warn_accept sampleSent mismatchReply []
    ⟨none, [mismatchReply], false⟩ rfl rfl (by decide) (by decide) (by decide)

/-- C10: a first non-echo line that does not deserialise as a response at
all leaves the pre-allocated envelope at its zero value; the loop still
breaks and `Command` returns that zero envelope (empty type, code 0 —
reported as success) with a nil error. -/
theorem command_undecodable_reply_silent_success
    (sent : SendEnvelope) (line : RecvLine) (rest : List RecvLine)
    (st : StreamModel)
    (hw : st.writeErr = none) (hlines : st.lines = line :: rest)
    (hnoecho : deepEqualSend line.asSend sent = false)
    (hzero : line.asRecv = zeroRecvEnvelope) :
    (command (some st) sent).result = .ok zeroRecvEnvelope ∧
    zeroRecvEnvelope.IsSuccess = true := by
  obtain ⟨w, l, r⟩ := st
  cases hw
  cases hlines
  refine ⟨?_, rfl⟩
  show GoResult.ok (commandLoop sent (line :: rest)).1 = .ok zeroRecvEnvelope
  rw [commandLoop_cons_reply sent line rest hnoecho, hzero]

/-- C10 witness: an undecodable line yields the zero envelope, nil error. -/
theorem command_undecodable_reply_silent_success_witness :
    (command (some ⟨none, [garbageLine], false⟩) sampleSent).result
      = .ok zeroRecvEnvelope ∧
    zeroRecvEnvelope.IsSuccess = true :=
  command_undecodable_reply_silent_success sampleSent garbageLine []
    ⟨none, [garbageLine], false⟩ rfl rfl (by decide) rfl

/-- C3 counterexample: `tcp://1.2.3.4:99999` is accepted with port 99999,
although 99999 does not fit an unsigned 16-bit integer — the claimed
uint16 rejection does not exist. -/
theorem parse_tcp_port_beyond_u16_cex :
    ParseEndpoint "tcp://1.2.3.4:99999"
        = .ok (.tcp { Host := "1.2.3.4", Port := 99999 })
    ∧ ¬ ((99999 : Int) < 2 ^ 16) := by
  refine ⟨rfl, by norm_num⟩

/-- C3 (amended): for `tcp://host` the endpoint carries the authority host
and the default port 5732; for `tcp://host:digits` it carries the host and
the `strconv.Atoi` value of the digit string — any digit string whose value
fits a 64-bit Go int is accepted (not only 16-bit values), and the port
parse error occurs exactly when the value overflows a 64-bit int. -/
theorem parse_tcp_amended (h p : List Char) (hne : ¬ h = [])
    (hh : ∀ c ∈ h, SimpleHostChar c) (hp : ∀ c ∈ p, isDigitChar c = true)
    (hpne : ¬ p = []) :
    ParseEndpointList ('t' :: 'c' :: 'p' :: ':' :: '/' :: '/' :: h) =
      .ok (.tcp { Host := String.mk h, Port := defaultTcpPort })
    ∧ (digitsToNat p ≤ maxGoInt →
        ParseEndpointList ('t' :: 'c' :: 'p' :: ':' :: '/' :: '/' :: (h ++ ':' :: p)) =
          .ok (.tcp { Host := String.mk h, Port := Int.ofNat (digitsToNat p) }))
    ∧ (¬ digitsToNat p ≤ maxGoInt →
        ParseEndpointList ('t' :: 'c' :: 'p' :: ':' :: '/' :: '/' :: (h ++ ':' :: p)) =
          .err "expected Port as String") := by
  refine ⟨parse_tcp_noport hne hh, ?_, ?_⟩
  · intro hle
    rw [parse_tcp_with_port_core hne hh hp hpne, goAtoi_ok hpne hp hle]
  · intro hgt
    rw [parse_tcp_with_port_core hne hh hp hpne, goAtoi_overflow hpne hp hgt]

/-- C3 witness: `tcp://luci:99` parses to host `luci`, port 99. -/
theorem parse_tcp_amended_witness :
    ParseEndpointList ('t' :: 'c' :: 'p' :: ':' :: '/' :: '/' ::
        (['l', 'u', 'c', 'i'] ++ ':' :: ['9', '9'])) =
      .ok (.tcp { Host := String.mk ['l', 'u', 'c', 'i'],
                  Port := Int.ofNat (digitsToNat ['9', '9']) }) :=
  (parse_tcp_amended ['l', 'u', 'c', 'i'] ['9', '9'] (by decide) (by decide)
      (by decide) (by decide)).2.1 (by decide)

/-- C4 counterexample: `serial:///dev/null` has an empty authority and a
present path, yet `ParseEndpoint` rejects it with the empty-host guard
error instead of yielding the path `/dev/null` as-is. -/
theorem parse_serial_empty_authority_cex :
    ParseEndpoint "serial:///dev/null"
        = .err "need to provide an LUCIDAC Endpoint URL such as tcp://1.2.3.4 or serial://"
    ∧ ¬ ParseEndpoint "serial:///dev/null" = .ok (.serial { Device := "/dev/null" }) := by
  refine ⟨rfl, by decide⟩

/-- C4 (amended): the two authority-present sub-cases hold — authority with
empty path yields the authority as-is, authority plus path yields
`/` + authority + path (so `serial://dev/null` gives `/dev/null` and
`serial://COM1` gives `COM1`) — but the authority-empty sub-case is
unreachable: the empty-host guard rejects such URLs (e.g.
`serial:///dev/null`) before the serial branch runs. -/
theorem parse_serial_amended (auth pp : List Char) (hne : ¬ auth = [])
    (hh : ∀ c ∈ auth, SimpleHostChar c) (hpp : ∀ c ∈ pp, PathChar c) :
    ParseEndpointList
        ('s' :: 'e' :: 'r' :: 'i' :: 'a' :: 'l' :: ':' :: '/' :: '/' :: auth) =
      .ok (.serial { Device := String.mk auth })
    ∧ ParseEndpointList
        ('s' :: 'e' :: 'r' :: 'i' :: 'a' :: 'l' :: ':' :: '/' :: '/' ::
          (auth ++ '/' :: pp)) =
      .ok (.serial { Device := String.mk ('/' :: (auth ++ '/' :: pp)) })
    ∧ ParseEndpointList
        ('s' :: 'e' :: 'r' :: 'i' :: 'a' :: 'l' :: ':' :: '/' :: '/' :: '/' :: pp) =
      .err "need to provide an LUCIDAC Endpoint URL such as tcp://1.2.3.4 or serial://" :=
  ⟨parse_serial_auth hne hh, parse_serial_auth_path hne hh hpp,
    parse_serial_absolute hpp⟩

/-- C4 witness: `serial://dev/null` parses to the device `/dev/null`, as in
the repository's test table. -/
theorem parse_serial_amended_witness :
    ParseEndpointList
        ('s' :: 'e' :: 'r' :: 'i' :: 'a' :: 'l' :: ':' :: '/' :: '/' ::
          (['d', 'e', 'v'] ++ '/' :: ['n', 'u', 'l', 'l'])) =
      .ok (.serial
        { Device := String.mk ('/' :: (['d', 'e', 'v'] ++ '/' :: ['n', 'u', 'l', 'l'])) }) :=
  (parse_serial_amended ['d', 'e', 'v'] ['n', 'u', 'l', 'l'] (by decide)
      (by decide) (by decide)).2.1

/-- C5: `parse(render(e))` does not round-trip.  `TCPEndpoint.ToURL` emits
`tcp:// host:port` with a stray space, which `url.Parse` rejects as an
invalid host byte; and a serial device with an absolute path renders to
`serial:///path`, which the empty-host guard rejects. -/
theorem toURL_roundtrip_fails :
    ParseEndpoint (TCPEndpoint.ToURL { Host := "1.2.3.4", Port := 5732 })
        = .err "could not parse as Endpoint URL"
    ∧ ParseEndpoint (SerialEndpoint.ToURL { Device := "/dev/null" })
        = .err "need to provide an LUCIDAC Endpoint URL such as tcp://1.2.3.4 or serial://" := by
  exact ⟨rfl, rfl⟩

/-- C6: for each discovery record, the hostname is resolved; when one
resolved address equals the announced address the candidate endpoint uses
the hostname, otherwise the announced raw address — always on port 5732. -/
theorem checkServer_resolution
    (lookupIP : String → Option (List String)) (entry : ServiceEntry) :
    ((∃ ips, lookupIP entry.Host = some ips ∧ entry.AddrV4 ∈ ips) →
        checkServerStep lookupIP entry = { Host := entry.Host, Port := defaultTcpPort })
    ∧ ((∀ ips, lookupIP entry.Host = some ips → entry.AddrV4 ∉ ips) →
        checkServerStep lookupIP entry = { Host := entry.AddrV4, Port := defaultTcpPort })
    ∧ (checkServerStep lookupIP entry).Port = defaultTcpPort := by
  refine ⟨?_, ?_, ?_⟩
  · rintro ⟨ips, hl, hm⟩
    unfold checkServerStep
    rw [hl]
    have hany : (ips.any fun ip => ip == entry.AddrV4) = true :=
      List.any_eq_true.mpr ⟨entry.AddrV4, hm, by simp⟩
    simp [hany]
  · intro hno
    unfold checkServerStep
    cases hl : lookupIP entry.Host with
    | none => simp
    | some ips =>
      have hany : (ips.any fun ip => ip == entry.AddrV4) = false := by
        apply any_eq_false_of_all
        intro x hx
        have hxne : ¬ x = entry.AddrV4 := fun hxe => hno ips hl (hxe ▸ hx)
        simp [hxne]
      simp [hany]
  · unfold checkServerStep
    cases lookupIP entry.Host with
    | none => simp
    | some ips =>
      by_cases hany : (ips.any fun ip => ip == entry.AddrV4) = true
      · simp [hany]
      · simp [Bool.eq_false_iff.mpr hany]

/-- C6 witness: a record whose hostname resolves to its announced address
yields the hostname-based endpoint on port 5732. -/
theorem checkServer_resolution_witness :
    checkServerStep (fun _ => some ["10.0.0.5"])
        { Host := "lucidac-01", AddrV4 := "10.0.0.5" }
      = { Host := "lucidac-01", Port := defaultTcpPort } :=
  (checkServer_resolution (fun _ => some ["10.0.0.5"])
      { Host := "lucidac-01", AddrV4 := "10.0.0.5" }).1
    ⟨["10.0.0.5"], rfl, by simp⟩

/-- C7: on timeout `FindAll` returns the empty list and `FindMaxOne` returns
no endpoint; and in every outcome both calls close the session's two queues
exactly once, unconditionally, before returning. -/
theorem discovery_timeout_single_close (o : SelectOutcome) :
    (o = .timedOut →
        (FindAll NewDiscoveryState o).1 = [] ∧
        (FindMaxOne NewDiscoveryState o).1 = none)
    ∧ (FindAll NewDiscoveryState o).2.entriesClosed = true
    ∧ (FindAll NewDiscoveryState o).2.foundClosed = true
    ∧ (FindAll NewDiscoveryState o).2.closeCalls = 1
    ∧ (FindMaxOne NewDiscoveryState o).2.entriesClosed = true
    ∧ (FindMaxOne NewDiscoveryState o).2.foundClosed = true
    ∧ (FindMaxOne NewDiscoveryState o).2.closeCalls = 1 := by
  cases o with
  | found e => exact ⟨fun h => (nomatch h), rfl, rfl, rfl, rfl, rfl, rfl⟩
  | timedOut => exact ⟨fun _ => ⟨rfl, rfl⟩, rfl, rfl, rfl, rfl, rfl, rfl⟩

/-- C7 witness: the timeout outcome yields no endpoints. -/
theorem discovery_timeout_single_close_witness :
    (FindAll NewDiscoveryState .timedOut).1 = [] ∧
    (FindMaxOne NewDiscoveryState .timedOut).1 = none :=
  (discovery_timeout_single_close .timedOut).1 rfl

/-- C8: a record producer delivering a late advertisement — a
`d.found <- endpoint` send after `Close` closed the queues — panics under
Go channel semantics instead of being an ignored no-op. -/
theorem late_record_send_panics :
    checkServerSendFound (DiscoveryClose NewDiscoveryState) = .panicked ∧
    ¬ checkServerSendFound (DiscoveryClose NewDiscoveryState) = .delivered := by
  decide

end Lucigo
